import Mathlib

/-!
Verification of the cell-data extraction and transmission pipeline of the
Excel task-pane add-in (src/taskpane/taskpane.js).

The definitions below are a shallow embedding of the JavaScript source:

* `getColumnLetter` embeds `getColumnLetter` (taskpane.js lines 609-616);
* `convertRangeToCellData` embeds `convertRangeToCellData` (lines 568-602);
* `getUsedRangeData` / `extractAllWorksheetData` embed the per-sheet and
  whole-workbook extraction (lines 538-560 and 622-642), with the host
  spreadsheet modelled as a list of worksheets each carrying an optional
  used range of loaded values / formulas / display text;
* `batchCellData` embeds `batchCellData` (lines 650-682);
* `transmitAllCellData` embeds the sequential delivery loop of
  `transmitAllCellData` (lines 739-826), with the per-batch network outcome
  supplied by an oracle `deliver : Nat → Option String` (`none` = the POST
  succeeded, `some msg` = it threw an error with message `msg`).

JavaScript scalar cell values are modelled by `JSValue`; numbers are
modelled by `Int` (the code only ever compares scalars with strict
equality, which structural equality mirrors for every non-NaN value).

The address codec (`parseRangeAddress`, `buildRangeAddress`) exists only in
the specification, not in the repository source; those definitions are
modelled from the spec and are marked as such.
-/

/-- A JavaScript scalar as delivered by the Office.js `values` / `formulas`
matrices: `null`, a boolean, a number, or a string.  Strict equality `===`
on these scalars is modelled by structural (decidable) equality. -/
inductive JSValue where
  | jnull
  | jbool (b : Bool)
  | jnum (n : Int)
  | jstr (s : String)
deriving DecidableEq, Repr

/-- The cell record built by `convertRangeToCellData` (taskpane.js lines
587-594): sheet name, letter column, 1-based row, nullable formula, value
and display text. -/
structure CellData where
  sheet_name : String
  column : String
  row : Nat
  formula : Option JSValue
  value : JSValue
  display_text : String
deriving DecidableEq, Repr

/-- An Excel range with its loaded properties, as consumed by
`convertRangeToCellData`: the `values`, `formulas` and `text` matrices plus
`rowCount` and `columnCount` (taskpane.js line 549 loads exactly these). -/
structure ExcelRange where
  values : List (List JSValue)
  formulas : List (List JSValue)
  text : List (List String)
  rowCount : Nat
  columnCount : Nat
deriving DecidableEq, Repr

/-- `range.values[row][col]`.  Out-of-range indices default to `jnull`;
inside `convertRangeToCellData` the indices always stay below `rowCount`
and `columnCount`. -/
def valueAt (range : ExcelRange) (row col : Nat) : JSValue :=
  (range.values.getD row []).getD col JSValue.jnull

/-- `range.formulas[row][col]`, with the same convention as `valueAt`. -/
def formulaAt (range : ExcelRange) (row col : Nat) : JSValue :=
  (range.formulas.getD row []).getD col JSValue.jnull

/-- `range.text[row][col]`, defaulting to the empty string. -/
def textAt (range : ExcelRange) (row col : Nat) : String :=
  (range.text.getD row []).getD col ""

/-- Loop body of `getColumnLetter` (taskpane.js lines 609-616) on the
underlying character list: emit `A`+(i mod 26) as the least significant
letter and continue with `i / 26 - 1`; the JavaScript loop stops when that
quantity goes negative, i.e. exactly when `i < 26`. -/
def getColumnLetterAux (columnIndex : Nat) : List Char :=
  if columnIndex < 26 then [Char.ofNat (65 + columnIndex % 26)]
  else getColumnLetterAux (columnIndex / 26 - 1) ++ [Char.ofNat (65 + columnIndex % 26)]
termination_by columnIndex
decreasing_by
  rename_i h
  have h2 : columnIndex / 26 < columnIndex := Nat.div_lt_self (by omega) (by omega)
  omega

/-- `getColumnLetter` (taskpane.js lines 609-616): 0-based column index to
bijective base-26 column letters. -/
def getColumnLetter (columnIndex : Nat) : String :=
  String.mk (getColumnLetterAux columnIndex)

/-- The record pushed by `convertRangeToCellData` for the cell at
(`row`, `col`) (taskpane.js lines 587-594): the formula field is nulled
out when the loaded formula strictly equals the loaded value. -/
def mkCellData (range : ExcelRange) (sheetName : String) (row col : Nat) : CellData :=
  { sheet_name := sheetName
    column := getColumnLetter col
    row := row + 1
    formula :=
      if formulaAt range row col ≠ valueAt range row col then some (formulaAt range row col)
      else none
    value := valueAt range row col
    display_text := textAt range row col }

/-- `convertRangeToCellData` (taskpane.js lines 568-602): walk the range
row-major and emit a record for every cell except those with `null` value,
`null` formula and falsy (empty) display text, which are skipped. -/
def convertRangeToCellData (range : ExcelRange) (sheetName : String) : List CellData :=
  (List.range range.rowCount).flatMap (fun row =>
    (List.range range.columnCount).filterMap (fun col =>
      if valueAt range row col = JSValue.jnull ∧ formulaAt range row col = JSValue.jnull ∧
          textAt range row col = "" then
        none
      else
        some (mkCellData range sheetName row col)))

/-- A worksheet of the host workbook as seen by the extraction code: its
name and its used range, `none` when the sheet has no used range. -/
structure Worksheet where
  sheet_name : String
  usedRange : Option ExcelRange
deriving DecidableEq, Repr

/-- `getUsedRangeData` (taskpane.js lines 538-560): load the sheet's entire
used range in one host read and convert it wholesale; a sheet without a
used range contributes no records.  The source performs no size check of
any kind on `rowCount` or `columnCount` and never splits the read. -/
def getUsedRangeData (ws : Worksheet) : List CellData :=
  match ws.usedRange with
  | none => []
  | some range => convertRangeToCellData range ws.sheet_name

/-- `extractAllWorksheetData` (taskpane.js lines 622-642): concatenate the
per-sheet extractions in sheet order. -/
def extractAllWorksheetData (workbook : List Worksheet) : List CellData :=
  workbook.flatMap getUsedRangeData

/-- Number of host range reads `getUsedRangeData` issues for one sheet:
the source loads the whole used range with a single load/sync round-trip
(taskpane.js lines 542-550), so one read when a used range exists and none
otherwise.  There is no windowing code in the repository. -/
def rangeReadCount (ws : Worksheet) : Nat :=
  match ws.usedRange with
  | none => 0
  | some _ => 1

/-- The batch object pushed by `batchCellData` (taskpane.js lines 671-676). -/
structure Batch where
  sheet_name : String
  cells : List CellData
  total_cells : Nat
  batch_number : Nat
deriving DecidableEq, Repr

/-- First-occurrence key order of the per-sheet grouping object built by
`batchCellData` (taskpane.js lines 654-660): `Object.keys` enumerates the
sheet names in insertion order, i.e. in order of first appearance in the
cell list. -/
def dedupFirst : List String → List String
  | [] => []
  | s :: rest => s :: dedupFirst (rest.filter (fun t => t ≠ s))
termination_by l => l.length
decreasing_by
  simp only [List.length_cons]
  have := List.length_filter_le (fun t => decide (t ≠ s)) rest
  omega

/-- The slicing loop of `batchCellData` (taskpane.js lines 667-677):
`sheetCells.slice(i, i + batchSize)` for `i = 0, batchSize, 2*batchSize, …`.
With `batchSize = 0` the JavaScript loop would never terminate; that case
is mapped to `[]` and never arises under the claims' `N > 0` hypothesis. -/
def chunkList {α : Type} (batchSize : Nat) (l : List α) : List (List α) :=
  if batchSize = 0 then []
  else match l with
    | [] => []
    | x :: xs => (x :: xs).take batchSize :: chunkList batchSize ((x :: xs).drop batchSize)
termination_by l.length
decreasing_by
  rename_i h1
  simp only [List.length_drop, List.length_cons]
  omega

/-- The per-sheet cell list of the grouping step of `batchCellData`
(taskpane.js lines 655-660): cells are pushed per sheet in their original
order, so each group is the subsequence of cells with that sheet name. -/
def sheetCellsOf (cellData : List CellData) (sheetName : String) : List CellData :=
  cellData.filter (fun c => c.sheet_name = sheetName)

/-- The batches `batchCellData` pushes for one sheet (taskpane.js lines
663-678): the sheet's cell list sliced into chunks of at most `batchSize`,
each tagged with the sheet name, the sheet's total cell count, and the
1-based chunk position (`Math.floor(i / batchSize) + 1 = chunk index + 1`). -/
def sheetBatches (cellData : List CellData) (batchSize : Nat) (sheetName : String) : List Batch :=
  (chunkList batchSize (sheetCellsOf cellData sheetName)).enum.map (fun p =>
    { sheet_name := sheetName
      cells := p.2
      total_cells := (sheetCellsOf cellData sheetName).length
      batch_number := p.1 + 1 })

/-- `batchCellData` (taskpane.js lines 650-682): group the cells by sheet,
then emit each sheet's batches in first-occurrence sheet order. -/
def batchCellData (cellData : List CellData) (batchSize : Nat) : List Batch :=
  (dedupFirst (cellData.map (fun c => c.sheet_name))).flatMap
    (sheetBatches cellData batchSize)

/-- The error record pushed by the catch branch of `transmitAllCellData`
(taskpane.js lines 792-796): the 1-based position of the batch in the
overall send order, its sheet, and the thrown error's message. -/
structure TransmissionError where
  batchNumber : Nat
  sheetName : String
  error : String
deriving DecidableEq, Repr

/-- The summary object returned by `transmitAllCellData` (taskpane.js
lines 803-810). -/
structure TransmissionSummary where
  totalCells : Nat
  totalBatches : Nat
  successfulBatches : Nat
  failedBatches : Nat
  errors : List TransmissionError
  success : Bool
deriving DecidableEq, Repr

/-- Loop body of `transmitAllCellData` (taskpane.js lines 762-801) on the
accumulator (successfulBatches, failedBatches, errors): a successful
delivery bumps `successfulBatches`; a failed one bumps `failedBatches` and
appends an error record carrying the batch's 1-based overall position, its
sheet, and the error message — and the loop continues with the next batch
either way.  `deliver i` is the outcome of sending the `i`-th batch
(`none` = success, `some msg` = failure with message `msg`). -/
def transmitStep (deliver : Nat → Option String) (acc : Nat × Nat × List TransmissionError)
    (p : Nat × Batch) : Nat × Nat × List TransmissionError :=
  match deliver p.1 with
  | none => (acc.1 + 1, acc.2.1, acc.2.2)
  | some msg => (acc.1, acc.2.1 + 1, acc.2.2 ++ [⟨p.1 + 1, p.2.sheet_name, msg⟩])

/-- `transmitAllCellData` proper: batch at the hard-coded size 1500, fold
the delivery loop over the enumerated batches, and assemble the summary
object (taskpane.js lines 744, 757-810). -/
def transmitAllCellData (cellData : List CellData) (deliver : Nat → Option String) :
    TransmissionSummary :=
  let batches := batchCellData cellData 1500
  let st : Nat × Nat × List TransmissionError :=
    batches.enum.foldl (transmitStep deliver) (0, 0, [])
  { totalCells := cellData.length
    totalBatches := batches.length
    successfulBatches := st.1
    failedBatches := st.2.1
    errors := st.2.2
    success := decide (st.2.1 = 0) }

/-- Decoder for bijective base-26 column letters; inverse of
`getColumnLetterAux` shifted by one, used to prove injectivity. -/
def decodeColAux (l : List Char) : Nat :=
  l.foldl (fun a c => a * 26 + (c.toNat - 64)) 0

/-- Modelled from the spec: the `FormatError` raised by `parseRangeAddress`
on a malformed address.  No address codec exists in the repository source;
the spec (section 4.1) is the only description of it. -/
inductive FormatError where
  | invalidFormat
deriving DecidableEq, Repr

/-- Modelled from the spec: the bounds returned by `parseRangeAddress` —
start/end column letter groups and start/end row numbers. -/
structure RangeBounds where
  startCol : String
  startRow : Nat
  endCol : String
  endRow : Nat
deriving DecidableEq, Repr

/-- An ASCII uppercase column letter, `A`..`Z`. -/
def isUpperLetter (c : Char) : Bool :=
  65 ≤ c.toNat && c.toNat ≤ 90

/-- An ASCII decimal digit, `0`..`9`. -/
def isDigitChar (c : Char) : Bool :=
  48 ≤ c.toNat && c.toNat ≤ 57

/-- Longest predicate-satisfying leading run of a character list, together
with the remainder. -/
def spanP (p : Char → Bool) : List Char → List Char × List Char
  | [] => ([], [])
  | c :: cs => if p c then ((c :: (spanP p cs).1), (spanP p cs).2) else ([], c :: cs)

/-- Value of a most-significant-first decimal digit run. -/
def digitsToNat (l : List Char) : Nat :=
  l.foldl (fun a c => a * 10 + (c.toNat - 48)) 0

/-- Decimal rendering of a natural number, most significant digit first. -/
def renderNat (n : Nat) : List Char :=
  if n < 10 then [Char.ofNat (48 + n)]
  else renderNat (n / 10) ++ [Char.ofNat (48 + n % 10)]
termination_by n
decreasing_by
  rename_i h
  have h2 : n / 10 < n := Nat.div_lt_self (by omega) (by omega)
  omega

/-- Modelled from the spec (section 4.1): `buildRangeAddress` concatenates
column letters and row digits around a colon, in the format
colLetters rowDigits colon colLetters rowDigits. -/
def buildRangeAddress (startCol : String) (startRow : Nat) (endCol : String) (endRow : Nat) :
    String :=
  String.mk (startCol.data ++ renderNat startRow ++ ':' :: (endCol.data ++ renderNat endRow))

/-- Modelled from the spec (section 4.1): `parseRangeAddress` on the
character list — scan a nonempty letter run, a nonempty digit run, a
colon, a second nonempty letter run and a second nonempty digit run
consuming the whole input, and fail with a `FormatError` otherwise. -/
def parseRangeAddressAux (l : List Char) : Except FormatError RangeBounds :=
  let p1 := spanP isUpperLetter l
  if p1.1 = [] then Except.error FormatError.invalidFormat
  else
    let p2 := spanP isDigitChar p1.2
    if p2.1 = [] then Except.error FormatError.invalidFormat
    else
      match p2.2 with
      | ':' :: rest2 =>
        let p3 := spanP isUpperLetter rest2
        if p3.1 = [] then Except.error FormatError.invalidFormat
        else
          let p4 := spanP isDigitChar p3.2
          if p4.1 = [] then Except.error FormatError.invalidFormat
          else if p4.2 = [] then
            Except.ok ⟨String.mk p1.1, digitsToNat p2.1, String.mk p3.1, digitsToNat p4.1⟩
          else Except.error FormatError.invalidFormat
      | _ => Except.error FormatError.invalidFormat

/-- Modelled from the spec: `parseRangeAddress` on strings. -/
def parseRangeAddress (s : String) : Except FormatError RangeBounds :=
  parseRangeAddressAux s.data

/-- Modelled from the spec: Boolean recogniser for the address pattern
colLetters rowDigits colon colLetters rowDigits, written with the same
scanning structure as `parseRangeAddressAux`. -/
def matchesPatternAux (l : List Char) : Bool :=
  let p1 := spanP isUpperLetter l
  if p1.1 = [] then false
  else
    let p2 := spanP isDigitChar p1.2
    if p2.1 = [] then false
    else
      match p2.2 with
      | ':' :: rest2 =>
        let p3 := spanP isUpperLetter rest2
        if p3.1 = [] then false
        else
          let p4 := spanP isDigitChar p3.2
          if p4.1 = [] then false
          else decide (p4.2 = [])
      | _ => false

/-- Modelled from the spec: address pattern recogniser on strings. -/
def matchesPattern (s : String) : Bool :=
  matchesPatternAux s.data

/-- A valid column bound for `buildRangeAddress`: a nonempty string of
uppercase letters. -/
def validColString (s : String) : Bool :=
  !s.data.isEmpty && s.data.all isUpperLetter

/-- A one-cell fixture record used by the concrete transmission scenario. -/
def sampleCell (sheet : String) : CellData :=
  { sheet_name := sheet
    column := "A"
    row := 1
    formula := none
    value := JSValue.jnum 1
    display_text := "1" }

/-- Three cells on three distinct sheets: batched at size 1500 they yield
exactly three single-cell batches. -/
def threeSheetCells : List CellData :=
  [sampleCell "S1", sampleCell "S2", sampleCell "S3"]

/-- Delivery oracle where only the second send (index 1) fails. -/
def failSecond : Nat → Option String :=
  fun i => if i = 1 then some "network error" else none

/-- Delivery oracle where the second and third sends fail; used to show
that the third batch is still attempted after the second one fails. -/
def failSecondAndThird : Nat → Option String :=
  fun i => if i = 0 then none else some "network error"

/-- A two-row, one-column used range with non-empty cells; stands in for a
sheet whose row count exceeds a would-be size limit. -/
def tallRange : ExcelRange :=
  { values := [[JSValue.jnum 1], [JSValue.jnum 2]]
    formulas := [[JSValue.jnum 1], [JSValue.jnum 2]]
    text := [["1"], ["2"]]
    rowCount := 2
    columnCount := 1 }

/-- A worksheet carrying `tallRange`. -/
def tallSheet : Worksheet :=
  { sheet_name := "Big", usedRange := some tallRange }

/-- A one-cell used range whose formula differs from its value; fixture for
the record-shape witnesses. -/
def oneCellRange : ExcelRange :=
  { values := [[JSValue.jnum 5]]
    formulas := [[JSValue.jstr "=2+3"]]
    text := [["5"]]
    rowCount := 1
    columnCount := 1 }

/-! ### List infrastructure lemmas -/

theorem chunkList_nil {α : Type} (n : Nat) : chunkList n ([] : List α) = [] := by
  rw [chunkList.eq_def]
  split <;> rfl

theorem chunkList_cons {α : Type} (n : Nat) (hn : n ≠ 0) (l : List α) (hl : l ≠ []) :
    chunkList n l = l.take n :: chunkList n (l.drop n) := by
  rw [chunkList.eq_def]
  rw [if_neg hn]
  match l with
  | [] => exact absurd rfl hl
  | x :: xs => rfl

theorem chunkList_flatten {α : Type} (n : Nat) (hn : n ≠ 0) :
    ∀ l : List α, (chunkList n l).flatten = l := by
  have H : ∀ (k : Nat) (l : List α), l.length ≤ k → (chunkList n l).flatten = l := by
    intro k
    induction k with
    | zero =>
      intro l hl
      have : l = [] := List.eq_nil_of_length_eq_zero (by omega)
      subst this
      rw [chunkList_nil]
      rfl
    | succ k ih =>
      intro l hl
      by_cases he : l = []
      · subst he; rw [chunkList_nil]; rfl
      · rw [chunkList_cons n hn l he, List.flatten_cons]
        rw [ih (l.drop n)]
        · exact List.take_append_drop n l
        · have h1 : l.length ≠ 0 := fun h => he (List.eq_nil_of_length_eq_zero h)
          simp only [List.length_drop]
          omega
  intro l
  exact H l.length l le_rfl

theorem chunkList_chunk_length_le {α : Type} (n : Nat) :
    ∀ l : List α, ∀ c ∈ chunkList n l, c.length ≤ n := by
  have H : ∀ (k : Nat) (l : List α), l.length ≤ k → ∀ c ∈ chunkList n l, c.length ≤ n := by
    intro k
    induction k with
    | zero =>
      intro l hl c hc
      have : l = [] := List.eq_nil_of_length_eq_zero (by omega)
      subst this
      rw [chunkList_nil] at hc
      exact absurd hc (List.not_mem_nil c)
    | succ k ih =>
      intro l hl c hc
      by_cases hn : n = 0
      · subst hn
        rw [chunkList.eq_def] at hc
        simp at hc
      by_cases he : l = []
      · subst he; rw [chunkList_nil] at hc; exact absurd hc (List.not_mem_nil c)
      · rw [chunkList_cons n hn l he] at hc
        rcases List.mem_cons.mp hc with h | h
        · subst h; exact List.length_take_le n l
        · refine ih (l.drop n) ?_ c h
          have h1 : l.length ≠ 0 := fun h => he (List.eq_nil_of_length_eq_zero h)
          simp only [List.length_drop]
          omega
  intro l
  exact H l.length l le_rfl

theorem chunkList_mem_of_mem_chunk {α : Type} (n : Nat) (hn : n ≠ 0) (l : List α)
    (c : List α) (hc : c ∈ chunkList n l) (x : α) (hx : x ∈ c) : x ∈ l := by
  have : x ∈ (chunkList n l).flatten := List.mem_flatten.mpr ⟨c, hc, hx⟩
  rwa [chunkList_flatten n hn l] at this

theorem chunkList_sum_lengths {α : Type} (n : Nat) (hn : n ≠ 0) (l : List α) :
    ((chunkList n l).map List.length).sum = l.length := by
  rw [← List.length_flatten, chunkList_flatten n hn l]

theorem mem_dedupFirst (a : String) : ∀ l : List String, a ∈ dedupFirst l ↔ a ∈ l := by
  intro l
  induction l using dedupFirst.induct with
  | case1 => rw [dedupFirst]
  | case2 s rest ih =>
    rw [dedupFirst]
    simp only [List.mem_cons, ih, List.mem_filter, decide_eq_true_eq]
    constructor
    · rintro (h | ⟨h, _⟩) <;> simp [h]
    · rintro (h | h)
      · exact Or.inl h
      · by_cases hs : a = s
        · exact Or.inl hs
        · exact Or.inr ⟨h, hs⟩

theorem dedupFirst_nodup : ∀ l : List String, (dedupFirst l).Nodup := by
  intro l
  induction l using dedupFirst.induct with
  | case1 => rw [dedupFirst]; exact List.nodup_nil
  | case2 s rest ih =>
    rw [dedupFirst]
    refine List.nodup_cons.mpr ⟨?_, ih⟩
    intro hmem
    have := (mem_dedupFirst s _).mp hmem
    rcases List.mem_filter.mp this with ⟨_, hne⟩
    simp at hne

theorem filter_dedupFirst (s : String) : ∀ l : List String,
    (dedupFirst l).filter (fun t => t = s) = if s ∈ l then [s] else [] := by
  intro l
  induction l using dedupFirst.induct with
  | case1 => rw [dedupFirst]; simp
  | case2 k rest ih =>
    rw [dedupFirst]
    by_cases hk : k = s
    · rw [hk]
      rw [List.filter_cons_of_pos (by simp)]
      have hnotin : s ∉ dedupFirst (rest.filter (fun t => t ≠ s)) := by
        intro hmem
        rcases List.mem_filter.mp ((mem_dedupFirst s _).mp hmem) with ⟨_, hne⟩
        simp at hne
      rw [List.filter_eq_nil_iff.mpr (fun a ha hpa => ?_)]
      · simp
      · have : a = s := by simpa using hpa
        subst this
        exact hnotin ha
    · rw [List.filter_cons_of_neg (by simpa using hk)]
      rw [ih]
      have : (s ∈ rest.filter (fun t => t ≠ k)) ↔ s ∈ rest := by
        simp only [List.mem_filter, decide_eq_true_eq]
        constructor
        · rintro ⟨h, _⟩; exact h
        · intro h; exact ⟨h, fun he => hk (he ▸ rfl)⟩
      rw [if_congr this rfl rfl]
      simp only [List.mem_cons]
      by_cases hs : s ∈ rest
      · rw [if_pos hs, if_pos (Or.inr hs)]
      · rw [if_neg hs, if_neg (by rintro (h | h); exact hk h.symm; exact hs h)]

theorem length_filter_split {α : Type} (p : α → Bool) (l : List α) :
    (l.filter p).length + (l.filter (fun a => !p a)).length = l.length := by
  induction l with
  | nil => rfl
  | cons x xs ih =>
    by_cases hx : p x
    · rw [List.filter_cons_of_pos hx, List.filter_cons_of_neg (by simp [hx])]
      simp only [List.length_cons]
      omega
    · rw [List.filter_cons_of_neg (by simpa using hx),
        List.filter_cons_of_pos (by simpa using hx)]
      simp only [List.length_cons]
      omega

theorem filter_not_filter {α : Type} (p q : α → Bool)
    (h : ∀ a, q a = true → p a = false) (l : List α) :
    (l.filter (fun a => !p a)).filter q = l.filter q := by
  induction l with
  | nil => rfl
  | cons x xs ih =>
    by_cases hq : q x
    · have hp : p x = false := h x hq
      rw [List.filter_cons_of_pos (by simp [hp]), List.filter_cons_of_pos hq,
        List.filter_cons_of_pos hq, ih]
    · by_cases hp : p x
      · rw [List.filter_cons_of_neg (by simp [hp]), List.filter_cons_of_neg (by simpa using hq), ih]
      · rw [List.filter_cons_of_pos (by simp [hp]), List.filter_cons_of_neg (by simpa using hq),
          List.filter_cons_of_neg (by simpa using hq), ih]

theorem sum_filter_partition :
    ∀ (keys : List String) (cells : List CellData), keys.Nodup →
      (∀ c ∈ cells, c.sheet_name ∈ keys) →
      (keys.map (fun k => (sheetCellsOf cells k).length)).sum = cells.length := by
  intro keys
  induction keys with
  | nil =>
    intro cells _ hcov
    have : cells = [] := by
      cases cells with
      | nil => rfl
      | cons c cs => exact absurd (hcov c (List.mem_cons_self c cs)) (List.not_mem_nil _)
    subst this
    rfl
  | cons k rest ih =>
    intro cells hnd hcov
    have hnd' := List.nodup_cons.mp hnd
    set cells' := cells.filter (fun c => !(decide (c.sheet_name = k))) with hcells'
    have hmap : rest.map (fun k' => (sheetCellsOf cells k').length) =
        rest.map (fun k' => (sheetCellsOf cells' k').length) := by
      refine List.map_congr_left (fun k' hk' => ?_)
      have hne : k' ≠ k := fun he => hnd'.1 (he ▸ hk')
      unfold sheetCellsOf
      rw [hcells', filter_not_filter (fun c => decide (c.sheet_name = k))
        (fun c => decide (c.sheet_name = k')) (fun c hc => ?_) cells]
      have : c.sheet_name = k' := by simpa using hc
      simp [this, hne]
    have hcov' : ∀ c ∈ cells', c.sheet_name ∈ rest := by
      intro c hc
      rcases List.mem_filter.mp hc with ⟨hmem, hval⟩
      rcases List.mem_cons.mp (hcov c hmem) with h | h
      · simp [h] at hval
      · exact h
    have hsum := ih cells' hnd'.2 hcov'
    simp only [List.map_cons, List.sum_cons, hmap, hsum]
    rw [hcells']
    unfold sheetCellsOf
    exact length_filter_split (fun c => decide (c.sheet_name = k)) cells

/-! ### Structure of batchCellData -/

theorem sum_flatMap_nat {α : Type} (g : α → List Nat) (l : List α) :
    (l.flatMap g).sum = (l.map (fun a => (g a).sum)).sum := by
  rw [show l.flatMap g = (l.map g).flatten from rfl, List.sum_flatten, List.map_map]
  rfl

theorem enum_map_fst_add_one {α : Type} (l : List α) :
    l.enum.map (fun p => p.1 + 1) = (List.range l.length).map (· + 1) := by
  rw [← List.enum_map_fst l, List.map_map]
  rfl

theorem mem_sheetBatches_sheet_name (cells : List CellData) (N : Nat) (s : String)
    (b : Batch) (hb : b ∈ sheetBatches cells N s) : b.sheet_name = s := by
  unfold sheetBatches at hb
  rcases List.mem_map.mp hb with ⟨p, _, rfl⟩
  rfl

theorem sheetBatches_map_cells (cells : List CellData) (N : Nat) (s : String) :
    (sheetBatches cells N s).map (fun b => b.cells) = chunkList N (sheetCellsOf cells s) := by
  unfold sheetBatches
  rw [List.map_map]
  exact List.enum_map_snd _

theorem sheetBatches_flatMap_cells (cells : List CellData) (N : Nat) (hn : N ≠ 0) (s : String) :
    (sheetBatches cells N s).flatMap (fun b => b.cells) = sheetCellsOf cells s := by
  rw [show (sheetBatches cells N s).flatMap (fun b => b.cells)
      = ((sheetBatches cells N s).map (fun b => b.cells)).flatten from rfl]
  rw [sheetBatches_map_cells]
  exact chunkList_flatten N hn _

theorem sheetBatches_sum_lengths (cells : List CellData) (N : Nat) (hn : N ≠ 0) (s : String) :
    ((sheetBatches cells N s).map (fun b => b.cells.length)).sum = (sheetCellsOf cells s).length := by
  have h : (sheetBatches cells N s).map (fun b => b.cells.length)
      = (chunkList N (sheetCellsOf cells s)).map List.length := by
    rw [← sheetBatches_map_cells cells N s, List.map_map]
    rfl
  rw [h, chunkList_sum_lengths N hn]

theorem sheetBatches_map_batch_number (cells : List CellData) (N : Nat) (s : String) :
    (sheetBatches cells N s).map (fun b => b.batch_number) =
      (List.range (sheetBatches cells N s).length).map (· + 1) := by
  unfold sheetBatches
  rw [List.map_map, List.length_map, List.enum_length]
  exact enum_map_fst_add_one _

theorem flatMap_if_eq {α : Type} (s : String) (f : String → List α) :
    ∀ keys : List String,
      (keys.flatMap (fun k => if k = s then f k else [])) =
        (keys.filter (fun k => k = s)).flatMap f := by
  intro keys
  induction keys with
  | nil => rfl
  | cons k rest ih =>
    by_cases hk : k = s
    · rw [List.flatMap_cons, List.filter_cons_of_pos (by simp [hk]), List.flatMap_cons,
        if_pos hk, ih]
    · rw [List.flatMap_cons, List.filter_cons_of_neg (by simp [hk]), if_neg hk, ih,
        List.nil_append]

theorem batchCellData_filter (cells : List CellData) (N : Nat) (s : String) :
    (batchCellData cells N).filter (fun b => b.sheet_name = s) =
      if s ∈ cells.map (fun c => c.sheet_name) then sheetBatches cells N s else [] := by
  unfold batchCellData
  rw [List.filter_flatMap]
  have hstep : ∀ k, (sheetBatches cells N k).filter (fun b => b.sheet_name = s) =
      if k = s then sheetBatches cells N k else [] := by
    intro k
    by_cases hk : k = s
    · rw [if_pos hk]
      apply List.filter_eq_self.mpr
      intro b hb
      simp [mem_sheetBatches_sheet_name cells N k b hb, hk]
    · rw [if_neg hk]
      apply List.filter_eq_nil_iff.mpr
      intro b hb
      simp [mem_sheetBatches_sheet_name cells N k b hb, hk]
  simp only [hstep]
  rw [flatMap_if_eq s (sheetBatches cells N), filter_dedupFirst s]
  by_cases hs : s ∈ cells.map (fun c => c.sheet_name)
  · rw [if_pos hs, if_pos hs]
    simp
  · rw [if_neg hs, if_neg hs]
    rfl

/-- C1: for every cell list and every batch size N > 0, the batches of
`batchCellData` partition the cells exactly — the total number of cells
across all batches equals the input length, and for each sheet the
concatenation of that sheet's batches' cells (in batch order) is exactly
that sheet's cells from the input, in their original order. -/
theorem batchCellData_partition_exact (cells : List CellData) (N : Nat) (hN : 0 < N) :
    ((batchCellData cells N).map (fun b => b.cells.length)).sum = cells.length ∧
    ∀ s : String,
      ((batchCellData cells N).filter (fun b => b.sheet_name = s)).flatMap (fun b => b.cells) =
        cells.filter (fun c => c.sheet_name = s) := by
  have hn : N ≠ 0 := by omega
  constructor
  · unfold batchCellData
    rw [List.map_flatMap, sum_flatMap_nat]
    simp only [sheetBatches_sum_lengths cells N hn]
    refine sum_filter_partition _ cells (dedupFirst_nodup _) ?_
    intro c hc
    exact (mem_dedupFirst _ _).mpr (List.mem_map.mpr ⟨c, hc, rfl⟩)
  · intro s
    rw [batchCellData_filter cells N s]
    by_cases hs : s ∈ cells.map (fun c => c.sheet_name)
    · rw [if_pos hs]
      exact sheetBatches_flatMap_cells cells N hn s
    · rw [if_neg hs]
      symm
      apply List.filter_eq_nil_iff.mpr
      intro c hc hcs
      exact hs (List.mem_map.mpr ⟨c, hc, by simpa using hcs⟩)

/-- Witness for C1 at the concrete three-sheet cell list and batch size 1. -/
theorem batchCellData_partition_exact_witness :
    0 < 1 ∧
      (((batchCellData threeSheetCells 1).map (fun b => b.cells.length)).sum =
          threeSheetCells.length ∧
        ∀ s : String,
          ((batchCellData threeSheetCells 1).filter (fun b => b.sheet_name = s)).flatMap
              (fun b => b.cells) =
            threeSheetCells.filter (fun c => c.sheet_name = s)) :=
  ⟨Nat.one_pos, batchCellData_partition_exact threeSheetCells 1 Nat.one_pos⟩

/-- C2: every batch holds at most N cells, all cells of a batch carry the
batch's sheet name, and within each sheet the batch numbers are the
1-based consecutive integers 1, 2, … restarting at 1 for each sheet. -/
theorem batchCellData_batch_invariants (cells : List CellData) (N : Nat) (hN : 0 < N) :
    (∀ b ∈ batchCellData cells N,
        b.cells.length ≤ N ∧ ∀ c ∈ b.cells, c.sheet_name = b.sheet_name) ∧
    ∀ s : String,
      ((batchCellData cells N).filter (fun b => b.sheet_name = s)).map (fun b => b.batch_number) =
        (List.range ((batchCellData cells N).filter (fun b => b.sheet_name = s)).length).map
          (· + 1) := by
  have hn : N ≠ 0 := by omega
  constructor
  · intro b hb
    unfold batchCellData at hb
    rcases List.mem_flatMap.mp hb with ⟨k, hk, hbk⟩
    have hsheet : b.sheet_name = k := mem_sheetBatches_sheet_name cells N k b hbk
    unfold sheetBatches at hbk
    rcases List.mem_map.mp hbk with ⟨p, hp, rfl⟩
    refine ⟨chunkList_chunk_length_le N _ p.2 (List.snd_mem_of_mem_enum hp), ?_⟩
    intro c hc
    have hc2 : c ∈ sheetCellsOf cells k :=
      chunkList_mem_of_mem_chunk N hn _ p.2 (List.snd_mem_of_mem_enum hp) c hc
    rcases List.mem_filter.mp hc2 with ⟨_, hcs⟩
    simpa using hcs
  · intro s
    rw [batchCellData_filter cells N s]
    by_cases hs : s ∈ cells.map (fun c => c.sheet_name)
    · rw [if_pos hs]
      exact sheetBatches_map_batch_number cells N s
    · rw [if_neg hs]
      rfl

/-- Witness for C2 at the concrete three-sheet cell list and batch size 1. -/
theorem batchCellData_batch_invariants_witness :
    0 < 1 ∧
      ((∀ b ∈ batchCellData threeSheetCells 1,
          b.cells.length ≤ 1 ∧ ∀ c ∈ b.cells, c.sheet_name = b.sheet_name) ∧
        ∀ s : String,
          ((batchCellData threeSheetCells 1).filter (fun b => b.sheet_name = s)).map
              (fun b => b.batch_number) =
            (List.range
                ((batchCellData threeSheetCells 1).filter
                  (fun b => b.sheet_name = s)).length).map (· + 1)) :=
  ⟨Nat.one_pos, batchCellData_batch_invariants threeSheetCells 1 Nat.one_pos⟩

/-! ### The transmission loop -/

theorem transmitStep_foldl (deliver : Nat → Option String) :
    ∀ (l : List (Nat × Batch)) (acc : Nat × Nat × List TransmissionError),
      l.foldl (transmitStep deliver) acc =
        (acc.1 + (l.filter (fun q => (deliver q.1).isNone)).length,
         acc.2.1 + (l.filter (fun q => (deliver q.1).isSome)).length,
         acc.2.2 ++ l.filterMap (fun q => (deliver q.1).map
           (fun msg => ⟨q.1 + 1, q.2.sheet_name, msg⟩))) := by
  intro l
  induction l with
  | nil => intro acc; simp
  | cons q t ih =>
    intro acc
    rw [List.foldl_cons]
    cases hq : deliver q.1 with
    | none =>
      have hstep : transmitStep deliver acc q = (acc.1 + 1, acc.2.1, acc.2.2) := by
        unfold transmitStep
        rw [hq]
      rw [hstep, ih]
      simp [List.filter_cons, List.filterMap_cons, hq, Prod.ext_iff]
      omega
    | some msg =>
      have hstep : transmitStep deliver acc q =
          (acc.1, acc.2.1 + 1, acc.2.2 ++ [⟨q.1 + 1, q.2.sheet_name, msg⟩]) := by
        unfold transmitStep
        rw [hq]
      rw [hstep, ih]
      simp [List.filter_cons, List.filterMap_cons, hq, Prod.ext_iff]
      omega

theorem count_none_add_count_some (deliver : Nat → Option String) (l : List (Nat × Batch)) :
    (l.filter (fun q => (deliver q.1).isNone)).length +
      (l.filter (fun q => (deliver q.1).isSome)).length = l.length := by
  induction l with
  | nil => rfl
  | cons q t ih =>
    cases hq : deliver q.1 <;> simp [List.filter_cons, hq] <;> omega

/-- C3: for every input cell list and every per-batch delivery outcome, the
summary returned by `transmitAllCellData` satisfies
`success = (failedBatches = 0)` and
`successfulBatches + failedBatches = totalBatches`, where `totalBatches` is
the number of batches created from the input. -/
theorem transmit_summary_invariant (cellData : List CellData) (deliver : Nat → Option String) :
    ((transmitAllCellData cellData deliver).success = true ↔
      (transmitAllCellData cellData deliver).failedBatches = 0) ∧
    (transmitAllCellData cellData deliver).successfulBatches +
        (transmitAllCellData cellData deliver).failedBatches =
      (transmitAllCellData cellData deliver).totalBatches ∧
    (transmitAllCellData cellData deliver).totalBatches =
      (batchCellData cellData 1500).length := by
  refine ⟨?_, ?_, ?_⟩
  · simp [transmitAllCellData, transmitStep_foldl]
  · simp only [transmitAllCellData, transmitStep_foldl, Nat.zero_add]
    have h := count_none_add_count_some deliver (batchCellData cellData 1500).enum
    rw [List.enum_length] at h
    simpa using h
  · rfl

theorem chunkList_singleton {α : Type} (n : Nat) (hn : n ≠ 0) (x : α) :
    chunkList n [x] = [[x]] := by
  rw [chunkList_cons n hn [x] (by simp)]
  cases n with
  | zero => exact absurd rfl hn
  | succ m => simp [chunkList_nil]

theorem batchCellData_threeSheetCells :
    batchCellData threeSheetCells 1500 =
      [{ sheet_name := "S1", cells := [sampleCell "S1"], total_cells := 1, batch_number := 1 },
       { sheet_name := "S2", cells := [sampleCell "S2"], total_cells := 1, batch_number := 1 },
       { sheet_name := "S3", cells := [sampleCell "S3"], total_cells := 1, batch_number := 1 }] := by
  have h1 : sheetCellsOf threeSheetCells "S1" = [sampleCell "S1"] := by
    simp +decide [sheetCellsOf, threeSheetCells, sampleCell]
  have h2 : sheetCellsOf threeSheetCells "S2" = [sampleCell "S2"] := by
    simp +decide [sheetCellsOf, threeSheetCells, sampleCell]
  have h3 : sheetCellsOf threeSheetCells "S3" = [sampleCell "S3"] := by
    simp +decide [sheetCellsOf, threeSheetCells, sampleCell]
  have hk : dedupFirst (threeSheetCells.map (fun c => c.sheet_name)) = ["S1", "S2", "S3"] := by
    simp +decide [threeSheetCells, sampleCell, dedupFirst]
  unfold batchCellData
  rw [hk]
  simp [sheetBatches, h1, h2, h3, chunkList_singleton 1500 (by omega), List.enum]

/-- C4: a failed delivery increments `failedBatches`, appends an error
record with the batch's 1-based position, its sheet name and the error
message, and does not stop the loop — every batch is attempted and either
counted as a success or as a failure.  Concretely, with three batches where
only batch 2's delivery fails, the summary reports 2 successes, 1 failure,
overall failure, and exactly one error entry naming batch 2 and sheet S2;
and when batch 2 and batch 3 both fail, both failures are counted, showing
that batch 3 is still attempted after batch 2 fails. -/
theorem transmit_failure_accounting :
    (∀ (cellData : List CellData) (deliver : Nat → Option String),
      (transmitAllCellData cellData deliver).errors =
        (batchCellData cellData 1500).enum.filterMap (fun q =>
          (deliver q.1).map (fun msg => ⟨q.1 + 1, q.2.sheet_name, msg⟩)) ∧
      (transmitAllCellData cellData deliver).successfulBatches +
          (transmitAllCellData cellData deliver).failedBatches =
        (transmitAllCellData cellData deliver).totalBatches) ∧
    transmitAllCellData threeSheetCells failSecond =
      { totalCells := 3, totalBatches := 3, successfulBatches := 2, failedBatches := 1,
        errors := [{ batchNumber := 2, sheetName := "S2", error := "network error" }],
        success := false } ∧
    (transmitAllCellData threeSheetCells failSecondAndThird).failedBatches = 2 := by
  refine ⟨?_, ?_, ?_⟩
  · intro cellData deliver
    simp only [transmitAllCellData, transmitStep_foldl, Nat.zero_add]
    constructor
    · simp
    · have h := count_none_add_count_some deliver (batchCellData cellData 1500).enum
      rw [List.enum_length] at h
      simpa using h
  · simp only [transmitAllCellData, batchCellData_threeSheetCells]
    decide
  · simp only [transmitAllCellData, batchCellData_threeSheetCells]
    decide

/-! ### Column letters -/

theorem decodeColAux_append (l : List Char) (c : Char) :
    decodeColAux (l ++ [c]) = (decodeColAux l) * 26 + (c.toNat - 64) := by
  unfold decodeColAux
  rw [List.foldl_append]
  rfl

theorem decodeColAux_getColumnLetterAux :
    ∀ i : Nat, decodeColAux (getColumnLetterAux i) = i + 1 := by
  intro i
  induction i using Nat.strong_induction_on with
  | _ i ih =>
    have hc : ∀ k < 26, (Char.ofNat (65 + k)).toNat = 65 + k := by decide
    by_cases h : i < 26
    · rw [getColumnLetterAux, if_pos h]
      have hm : i % 26 = i := Nat.mod_eq_of_lt h
      simp [decodeColAux, hm, hc i h]
      omega
    · rw [getColumnLetterAux, if_neg h]
      have hlt : i / 26 - 1 < i := by
        have h2 : i / 26 < i := Nat.div_lt_self (by omega) (by omega)
        omega
      have hmod : i % 26 < 26 := Nat.mod_lt _ (by omega)
      rw [decodeColAux_append, ih (i / 26 - 1) hlt, hc _ hmod]
      have hdiv : 1 ≤ i / 26 := (Nat.one_le_div_iff (by omega)).mpr (by omega)
      have := Nat.div_add_mod i 26
      omega

theorem getColumnLetterAux_injective (i j : Nat)
    (h : getColumnLetterAux i = getColumnLetterAux j) : i = j := by
  have h1 := decodeColAux_getColumnLetterAux i
  have h2 := decodeColAux_getColumnLetterAux j
  rw [h] at h1
  omega

/-- C7: `getColumnLetter` is the bijective base-26 letter encoding — it
maps 0 to A, 25 to Z, 26 to AA and 701 to ZZ, and it is injective on the
indices 0..10000. -/
theorem getColumnLetter_bijective_base26 :
    getColumnLetter 0 = "A" ∧ getColumnLetter 25 = "Z" ∧ getColumnLetter 26 = "AA" ∧
    getColumnLetter 701 = "ZZ" ∧
    ∀ i j : Nat, i ≤ 10000 → j ≤ 10000 → getColumnLetter i = getColumnLetter j → i = j := by
  refine ⟨?_, ?_, ?_, ?_, ?_⟩
  · simp [getColumnLetter, getColumnLetterAux]
  · simp [getColumnLetter, getColumnLetterAux]
  · simp [getColumnLetter, getColumnLetterAux]
  · simp [getColumnLetter, getColumnLetterAux]
  · intro i j _ _ h
    unfold getColumnLetter at h
    injection h with h'
    exact getColumnLetterAux_injective i j h'

/-- Witness for C7: the injectivity part applied at the concrete pair
(3, 3) with its bounds discharged. -/
theorem getColumnLetter_bijective_base26_witness : 3 ≤ 10000 ∧ 3 = 3 :=
  ⟨by norm_num,
    getColumnLetter_bijective_base26.2.2.2.2 3 3 (by norm_num) (by norm_num) rfl⟩

/-! ### Shape of the records emitted by convertRangeToCellData -/

theorem mem_convertRangeToCellData (range : ExcelRange) (sheetName : String) (rec : CellData) :
    rec ∈ convertRangeToCellData range sheetName ↔
      ∃ row col, row < range.rowCount ∧ col < range.columnCount ∧
        ¬(valueAt range row col = JSValue.jnull ∧ formulaAt range row col = JSValue.jnull ∧
          textAt range row col = "") ∧
        rec = mkCellData range sheetName row col := by
  unfold convertRangeToCellData
  simp only [List.mem_flatMap, List.mem_filterMap, List.mem_range]
  constructor
  · rintro ⟨row, hrow, col, hcol, hopt⟩
    by_cases hc : valueAt range row col = JSValue.jnull ∧ formulaAt range row col = JSValue.jnull ∧
        textAt range row col = ""
    · rw [if_pos hc] at hopt
      exact absurd hopt (by simp)
    · rw [if_neg hc] at hopt
      exact ⟨row, col, hrow, hcol, hc, (Option.some.inj hopt).symm⟩
  · rintro ⟨row, col, hrow, hcol, hc, rfl⟩
    exact ⟨row, hrow, col, hcol, by rw [if_neg hc]⟩

/-- C9: every record emitted by `convertRangeToCellData` has a non-null
value, a non-null formula field, or non-empty display text; moreover every
record comes from an in-range cell position whose loaded value, formula
and text are not all empty — all-empty cells are never materialised. -/
theorem convertRange_no_empty_records (range : ExcelRange) (sheetName : String)
    (rec : CellData) (hrec : rec ∈ convertRangeToCellData range sheetName) :
    (rec.value ≠ JSValue.jnull ∨ rec.formula ≠ none ∨ rec.display_text ≠ "") ∧
    ∃ row col, row < range.rowCount ∧ col < range.columnCount ∧
      ¬(valueAt range row col = JSValue.jnull ∧ formulaAt range row col = JSValue.jnull ∧
        textAt range row col = "") ∧
      rec = mkCellData range sheetName row col := by
  have hchar := (mem_convertRangeToCellData range sheetName rec).mp hrec
  refine ⟨?_, hchar⟩
  rcases hchar with ⟨row, col, hrow, hcol, hc, rfl⟩
  by_cases hv : valueAt range row col = JSValue.jnull
  · by_cases hf : formulaAt range row col = JSValue.jnull
    · have ht : textAt range row col ≠ "" := fun h => hc ⟨hv, hf, h⟩
      right
      right
      simpa [mkCellData] using ht
    · right
      left
      simp [mkCellData, hv, hf]
  · left
    simpa [mkCellData] using hv

/-- Witness for C9 at a concrete one-cell range. -/
theorem convertRange_no_empty_records_witness :
    mkCellData oneCellRange "S" 0 0 ∈ convertRangeToCellData oneCellRange "S" ∧
      ((mkCellData oneCellRange "S" 0 0).value ≠ JSValue.jnull ∨
        (mkCellData oneCellRange "S" 0 0).formula ≠ none ∨
        (mkCellData oneCellRange "S" 0 0).display_text ≠ "") ∧
      ∃ row col, row < oneCellRange.rowCount ∧ col < oneCellRange.columnCount ∧
        ¬(valueAt oneCellRange row col = JSValue.jnull ∧
          formulaAt oneCellRange row col = JSValue.jnull ∧ textAt oneCellRange row col = "") ∧
        mkCellData oneCellRange "S" 0 0 = mkCellData oneCellRange "S" row col :=
  have hmem : mkCellData oneCellRange "S" 0 0 ∈ convertRangeToCellData oneCellRange "S" :=
    (mem_convertRangeToCellData oneCellRange "S" _).mpr
      ⟨0, 0, by decide, by decide, by decide, rfl⟩
  ⟨hmem, convertRange_no_empty_records oneCellRange "S" _ hmem⟩

/-- C10: for every emitted record, the formula field is `none` exactly when
the loaded formula strictly equals the loaded value at that cell, and
otherwise it holds the loaded formula unchanged. -/
theorem convertRange_formula_null_iff (range : ExcelRange) (sheetName : String)
    (rec : CellData) (hrec : rec ∈ convertRangeToCellData range sheetName) :
    ∃ row col, row < range.rowCount ∧ col < range.columnCount ∧
      rec = mkCellData range sheetName row col ∧
      (rec.formula = none ↔ formulaAt range row col = valueAt range row col) ∧
      (formulaAt range row col ≠ valueAt range row col →
        rec.formula = some (formulaAt range row col)) := by
  rcases (mem_convertRangeToCellData range sheetName rec).mp hrec with
    ⟨row, col, hrow, hcol, _, rfl⟩
  refine ⟨row, col, hrow, hcol, rfl, ?_, ?_⟩
  · by_cases hfv : formulaAt range row col = valueAt range row col
    · simp [mkCellData, hfv]
    · simp [mkCellData, hfv]
  · intro hfv
    simp [mkCellData, hfv]

/-- Witness for C10 at the same concrete one-cell range. -/
theorem convertRange_formula_null_iff_witness :
    mkCellData oneCellRange "S" 0 0 ∈ convertRangeToCellData oneCellRange "S" ∧
      ∃ row col, row < oneCellRange.rowCount ∧ col < oneCellRange.columnCount ∧
        mkCellData oneCellRange "S" 0 0 = mkCellData oneCellRange "S" row col ∧
        ((mkCellData oneCellRange "S" 0 0).formula = none ↔
          formulaAt oneCellRange row col = valueAt oneCellRange row col) ∧
        (formulaAt oneCellRange row col ≠ valueAt oneCellRange row col →
          (mkCellData oneCellRange "S" 0 0).formula = some (formulaAt oneCellRange row col)) :=
  have hmem : mkCellData oneCellRange "S" 0 0 ∈ convertRangeToCellData oneCellRange "S" :=
    (mem_convertRangeToCellData oneCellRange "S" _).mpr
      ⟨0, 0, by decide, by decide, by decide, rfl⟩
  ⟨hmem, convertRange_formula_null_iff oneCellRange "S" _ hmem⟩

/-! ### No size limits and no windowing in extraction -/

/-- C5 counterexample: the source never skips a sheet by size.  The claim —
read against the code, which contains no `maxTotalRows` / `maxTotalCols`
constants at all — would require that for some bounds every sheet whose
used range exceeds them contributes zero records; the two-row sheet
`tallSheet` refutes every such bound below its row count, here 1. -/
theorem extract_size_skip_counterexample :
    ¬ (∀ (maxTotalRows maxTotalCols : Nat) (ws : Worksheet) (range : ExcelRange),
        ws.usedRange = some range →
        (maxTotalRows < range.rowCount ∨ maxTotalCols < range.columnCount) →
        getUsedRangeData ws = []) := by
  intro h
  have hskip := h 1 1 tallSheet tallRange rfl (by decide)
  have hlen : (getUsedRangeData tallSheet).length = 2 := by decide
  rw [hskip] at hlen
  simp at hlen

/-- C5 amended: extraction never skips a sheet for its size.  Every sheet
with a used range contributes the conversion of its entire range whatever
its `rowCount` and `columnCount` are, and each sheet's contribution is
independent of the other sheets in the workbook. -/
theorem extract_never_skips_any_sheet (pre post : List Worksheet) (ws : Worksheet) :
    extractAllWorksheetData (pre ++ ws :: post) =
      extractAllWorksheetData pre ++ getUsedRangeData ws ++ extractAllWorksheetData post ∧
    ∀ (name : String) (range : ExcelRange),
      getUsedRangeData { sheet_name := name, usedRange := some range } =
        convertRangeToCellData range name := by
  constructor
  · unfold extractAllWorksheetData
    rw [List.flatMap_append, List.flatMap_cons, ← List.append_assoc]
  · intro name range
    rfl

/-- C6 counterexample: extraction does not read sheets in row windows.  The
claim predicts ceil(rowCount / maxRowsPerBatch) separate reads for a sheet
passing the size limits; the source performs exactly one read per sheet,
refuted here with rowCount = 2 and maxRowsPerBatch = 1 (limits 100). -/
theorem extract_window_count_counterexample :
    ¬ (∀ (maxRowsPerBatch maxTotalRows maxTotalCols : Nat) (ws : Worksheet)
        (range : ExcelRange),
        0 < maxRowsPerBatch → ws.usedRange = some range →
        range.rowCount ≤ maxTotalRows → range.columnCount ≤ maxTotalCols →
        rangeReadCount ws = (range.rowCount + maxRowsPerBatch - 1) / maxRowsPerBatch) := by
  intro h
  have hwin := h 1 100 100 tallSheet tallRange (by decide) rfl (by decide) (by decide)
  exact absurd hwin (by decide)

/-- C6 amended: extraction reads each sheet's occupied range in a single
host read covering the whole row span — one read when a used range exists,
none otherwise — and that single read spans every emitted row: each
emitted record's 1-based row lies between 1 and `rowCount`. -/
theorem extract_single_window (name : String) (range : ExcelRange) :
    rangeReadCount { sheet_name := name, usedRange := some range } = 1 ∧
    rangeReadCount { sheet_name := name, usedRange := none } = 0 ∧
    ∀ rec ∈ convertRangeToCellData range name, 1 ≤ rec.row ∧ rec.row ≤ range.rowCount := by
  refine ⟨rfl, rfl, ?_⟩
  intro rec hrec
  rcases (mem_convertRangeToCellData range name rec).mp hrec with ⟨row, col, hrow, _, _, rfl⟩
  simp only [mkCellData]
  omega

/-- Witness for the amended C6 statement at a concrete one-cell range. -/
theorem extract_single_window_witness :
    mkCellData oneCellRange "S" 0 0 ∈ convertRangeToCellData oneCellRange "S" ∧
      1 ≤ (mkCellData oneCellRange "S" 0 0).row ∧
      (mkCellData oneCellRange "S" 0 0).row ≤ oneCellRange.rowCount :=
  have hmem : mkCellData oneCellRange "S" 0 0 ∈ convertRangeToCellData oneCellRange "S" :=
    (mem_convertRangeToCellData oneCellRange "S" _).mpr
      ⟨0, 0, by decide, by decide, by decide, rfl⟩
  ⟨hmem, (extract_single_window "S" oneCellRange).2.2 _ hmem⟩

/-! ### The address codec (modelled from the spec) -/

theorem spanP_append (p : Char → Bool) :
    ∀ (l1 l2 : List Char), (∀ c ∈ l1, p c = true) →
      (∀ c, l2.head? = some c → p c = false) →
      spanP p (l1 ++ l2) = (l1, l2) := by
  intro l1
  induction l1 with
  | nil =>
    intro l2 _ h2
    cases l2 with
    | nil => rfl
    | cons c cs =>
      have hc := h2 c rfl
      simp [spanP, hc]
  | cons c cs ih =>
    intro l2 h1 h2
    have hc : p c = true := h1 c (List.mem_cons_self c cs)
    show spanP p (c :: (cs ++ l2)) = (c :: cs, l2)
    rw [spanP, if_pos hc, ih l2 (fun d hd => h1 d (List.mem_cons_of_mem c hd)) h2]

theorem renderNat_ne_nil (n : Nat) : renderNat n ≠ [] := by
  rw [renderNat]
  by_cases h : n < 10
  · rw [if_pos h]
    simp
  · rw [if_neg h]
    simp

theorem renderNat_all_digits : ∀ n : Nat, ∀ c ∈ renderNat n, isDigitChar c = true := by
  have hd : ∀ k < 10, isDigitChar (Char.ofNat (48 + k)) = true := by decide
  intro n
  induction n using Nat.strong_induction_on with
  | _ n ih =>
    by_cases h : n < 10
    · rw [renderNat, if_pos h]
      intro c hc
      rw [List.mem_singleton.mp hc]
      exact hd n h
    · rw [renderNat, if_neg h]
      intro c hc
      rcases List.mem_append.mp hc with h' | h'
      · have hlt : n / 10 < n := Nat.div_lt_self (by omega) (by omega)
        exact ih (n / 10) hlt c h'
      · rw [List.mem_singleton.mp h']
        exact hd (n % 10) (Nat.mod_lt _ (by omega))

theorem digitsToNat_append (l : List Char) (c : Char) :
    digitsToNat (l ++ [c]) = (digitsToNat l) * 10 + (c.toNat - 48) := by
  unfold digitsToNat
  rw [List.foldl_append]
  rfl

theorem digitsToNat_renderNat : ∀ n : Nat, digitsToNat (renderNat n) = n := by
  have hd : ∀ k < 10, (Char.ofNat (48 + k)).toNat = 48 + k := by decide
  intro n
  induction n using Nat.strong_induction_on with
  | _ n ih =>
    by_cases h : n < 10
    · rw [renderNat, if_pos h]
      simp [digitsToNat, hd n h]
    · rw [renderNat, if_neg h, digitsToNat_append]
      have hlt : n / 10 < n := Nat.div_lt_self (by omega) (by omega)
      rw [ih (n / 10) hlt, hd (n % 10) (Nat.mod_lt _ (by omega))]
      omega

theorem digit_not_letter (c : Char) (h : isDigitChar c = true) : isUpperLetter c = false := by
  unfold isDigitChar at h
  unfold isUpperLetter
  simp only [Bool.and_eq_true, decide_eq_true_eq] at h
  simp only [Bool.and_eq_false_iff, decide_eq_false_iff_not]
  omega

theorem parseAux_of_shape (cs1 ds1 cs2 ds2 : List Char)
    (hcs1 : cs1 ≠ []) (hcs1l : ∀ c ∈ cs1, isUpperLetter c = true)
    (hds1 : ds1 ≠ []) (hds1d : ∀ c ∈ ds1, isDigitChar c = true)
    (hcs2 : cs2 ≠ []) (hcs2l : ∀ c ∈ cs2, isUpperLetter c = true)
    (hds2 : ds2 ≠ []) (hds2d : ∀ c ∈ ds2, isDigitChar c = true) :
    parseRangeAddressAux (cs1 ++ ds1 ++ ':' :: (cs2 ++ ds2)) =
      Except.ok ⟨String.mk cs1, digitsToNat ds1, String.mk cs2, digitsToNat ds2⟩ := by
  have s1 : spanP isUpperLetter (cs1 ++ (ds1 ++ ':' :: (cs2 ++ ds2))) =
      (cs1, ds1 ++ ':' :: (cs2 ++ ds2)) := by
    refine spanP_append isUpperLetter cs1 _ hcs1l ?_
    intro c hc
    cases hd : ds1 with
    | nil => exact absurd hd hds1
    | cons d t =>
      rw [hd] at hc
      simp only [List.cons_append, List.head?_cons, Option.some.injEq] at hc
      rw [← hc]
      exact digit_not_letter d (hds1d d (by rw [hd]; exact List.mem_cons_self d t))
  have s2 : spanP isDigitChar (ds1 ++ ':' :: (cs2 ++ ds2)) = (ds1, ':' :: (cs2 ++ ds2)) := by
    refine spanP_append isDigitChar ds1 _ hds1d ?_
    intro c hc
    simp only [List.head?_cons, Option.some.injEq] at hc
    rw [← hc]
    decide
  have s3 : spanP isUpperLetter (cs2 ++ ds2) = (cs2, ds2) := by
    refine spanP_append isUpperLetter cs2 _ hcs2l ?_
    intro c hc
    cases hd : ds2 with
    | nil => exact absurd hd hds2
    | cons d t =>
      rw [hd] at hc
      simp only [List.head?_cons, Option.some.injEq] at hc
      rw [← hc]
      exact digit_not_letter d (hds2d d (by rw [hd]; exact List.mem_cons_self d t))
  have s4 : spanP isDigitChar ds2 = (ds2, []) := by
    have h := spanP_append isDigitChar ds2 [] hds2d (by intro c hc; simp at hc)
    rwa [List.append_nil] at h
  rw [List.append_assoc]
  simp only [parseRangeAddressAux, s1, s2, s3, s4]
  rw [if_neg hcs1, if_neg hds1, if_neg hcs2, if_neg hds2]
  simp

theorem parseAux_error_of_not_matches (l : List Char) (h : matchesPatternAux l = false) :
    ∃ e, parseRangeAddressAux l = Except.error e := by
  refine ⟨FormatError.invalidFormat, ?_⟩
  by_cases h1 : (spanP isUpperLetter l).1 = []
  · simp [parseRangeAddressAux, h1]
  · by_cases h2 : (spanP isDigitChar (spanP isUpperLetter l).2).1 = []
    · simp [parseRangeAddressAux, h1, h2]
    · rcases hm : (spanP isDigitChar (spanP isUpperLetter l).2).2 with _ | ⟨c, rest2⟩
      · simp [parseRangeAddressAux, h1, h2, hm]
      · by_cases hc : c = ':'
        · subst hc
          by_cases h3 : (spanP isUpperLetter rest2).1 = []
          · simp [parseRangeAddressAux, h1, h2, hm, h3]
          · by_cases h4 : (spanP isDigitChar (spanP isUpperLetter rest2).2).1 = []
            · simp [parseRangeAddressAux, h1, h2, hm, h3, h4]
            · by_cases h5 : (spanP isDigitChar (spanP isUpperLetter rest2).2).2 = []
              · exfalso
                have hmt : matchesPatternAux l = true := by
                  simp [matchesPatternAux, h1, h2, hm, h3, h4, h5]
                rw [hmt] at h
                exact Bool.noConfusion h
              · simp [parseRangeAddressAux, h1, h2, hm, h3, h4, h5]
        · simp [parseRangeAddressAux, h1, h2, hm]
          split
          · rename_i heq
            rw [List.cons.injEq] at heq
            exact absurd heq.1 hc
          · rfl

theorem validColString_spec (s : String) (h : validColString s = true) :
    s.data ≠ [] ∧ ∀ c ∈ s.data, isUpperLetter c = true := by
  unfold validColString at h
  simp only [Bool.and_eq_true, Bool.not_eq_true', List.all_eq_true] at h
  refine ⟨?_, h.2⟩
  intro hnil
  rw [hnil] at h
  simp at h

/-- C8: for all valid column letter groups and row numbers, parsing the
built address round-trips to the original bounds; and any string that does
not match the pattern colLetters rowDigits colon colLetters rowDigits makes
`parseRangeAddress` fail with a `FormatError`. -/
theorem parseRangeAddress_roundtrip_and_rejects :
    (∀ (c1 : String) (r1 : Nat) (c2 : String) (r2 : Nat),
      validColString c1 = true → validColString c2 = true → 1 ≤ r1 → 1 ≤ r2 →
      parseRangeAddress (buildRangeAddress c1 r1 c2 r2) = Except.ok ⟨c1, r1, c2, r2⟩) ∧
    ∀ s : String, matchesPattern s = false → ∃ e, parseRangeAddress s = Except.error e := by
  constructor
  · intro c1 r1 c2 r2 h1 h2 _ _
    have hv1 := validColString_spec c1 h1
    have hv2 := validColString_spec c2 h2
    show parseRangeAddressAux (c1.data ++ renderNat r1 ++ ':' :: (c2.data ++ renderNat r2)) = _
    rw [parseAux_of_shape c1.data (renderNat r1) c2.data (renderNat r2)
      hv1.1 hv1.2 (renderNat_ne_nil r1) (renderNat_all_digits r1)
      hv2.1 hv2.2 (renderNat_ne_nil r2) (renderNat_all_digits r2)]
    rw [digitsToNat_renderNat, digitsToNat_renderNat]
  · intro s hs
    exact parseAux_error_of_not_matches s.data hs

/-- Witness for C8: the round trip at A1:B2 and the rejection of the
pattern-violating string 12, with the validity hypotheses discharged. -/
theorem parseRangeAddress_roundtrip_and_rejects_witness :
    (validColString "A" = true ∧ validColString "B" = true ∧ matchesPattern "12" = false) ∧
    parseRangeAddress (buildRangeAddress "A" 1 "B" 2) = Except.ok ⟨"A", 1, "B", 2⟩ ∧
    ∃ e, parseRangeAddress "12" = Except.error e :=
  ⟨⟨by decide, by decide, by decide⟩,
    parseRangeAddress_roundtrip_and_rejects.1 "A" 1 "B" 2 (by decide) (by decide)
      (by decide) (by decide),
    parseRangeAddress_roundtrip_and_rejects.2 "12" (by decide)⟩
